import Mathlib

/-!
Shallow embedding of the kilo text-viewer core (raw-mode terminal editor
tutorial code): row storage with tab rendering, cursor movement, scrolling,
key decoding, keypress dispatch, the append buffer, and the cursor-position
window-size fallback.  Bytes are modelled as `Nat`, C `int` fields as `Int`;
a `read()` attempt that may time out is `Option Nat` (`none` = timeout), and
a whole input stream is a `List (Option Nat)`.
-/

namespace Kilo

/-! ### Key constants (enum editorKey and CTRL_KEY) -/

def ARROW_LEFT : Nat := 1000
def ARROW_RIGHT : Nat := 1001
def ARROW_UP : Nat := 1002
def ARROW_DOWN : Nat := 1003
def DEL_KEY : Nat := 1004
def HOME_KEY : Nat := 1005
def END_KEY : Nat := 1006
def PAGE_UP : Nat := 1007
def PAGE_DOWN : Nat := 1008

/-- CTRL_KEY('q') = 'q' & 0x1f = 17. -/
def CTRL_Q : Nat := 17

def KILO_TAB_STOP : Nat := 8

/-! ### Rows and tab rendering (editorUpdateRow) -/

/-- One `erow`: `chars` is the stored line content, `render` its display
form.  Sizes (`size`, `rsize`) are the list lengths. -/
structure Erow where
  chars : List Nat
  render : List Nat
deriving DecidableEq

/-- The fill loop of `editorUpdateRow`, carrying the destination index
`idx`.  A tab (byte 9) appends one space unconditionally and then further
spaces until the destination index is divisible by `KILO_TAB_STOP`; since
`idx % 8 < 8`, that is `8 - idx % 8` spaces in total.  Any other byte is
copied and advances `idx` by one. -/
def renderLoop (idx : Nat) : List Nat → List Nat
  | [] => []
  | c :: cs =>
    if c = 9 then
      List.replicate (KILO_TAB_STOP - idx % KILO_TAB_STOP) 32 ++
        renderLoop (idx + (KILO_TAB_STOP - idx % KILO_TAB_STOP)) cs
    else
      c :: renderLoop (idx + 1) cs

/-- `editorUpdateRow`: recompute `render` from `chars`. -/
def editorUpdateRow (row : Erow) : Erow :=
  { row with render := renderLoop 0 row.chars }

/-- Number of tab bytes in a row's `chars` (the counting loop of
`editorUpdateRow`). -/
def tabCount (chars : List Nat) : Nat := chars.count 9

/-- `editorAppendRow`: append a new row holding the given bytes and compute
its render form. -/
def editorAppendRow (rows : List Erow) (s : List Nat) : List Erow :=
  rows ++ [editorUpdateRow { chars := s, render := [] }]

/-- The terminator-stripping loop in `editorOpen`:
`while (linelen > 0 && (line[linelen-1] == '\n' || line[linelen-1] == '\r'))
linelen--;` — i.e. drop the maximal trailing run of `\n` (10) and `\r` (13)
bytes. -/
def stripTrailingEOL (l : List Nat) : List Nat :=
  (l.reverse.dropWhile (fun b => b = 10 || b = 13)).reverse

/-- One iteration of the `editorOpen` read loop: strip the trailing
terminator run from the `getline` chunk, then append it as a row. -/
def editorOpenLine (rows : List Erow) (l : List Nat) : List Erow :=
  editorAppendRow rows (stripTrailingEOL l)

/-! ### Editor state -/

/-- The global editor state `E` (the fields the viewer core uses). -/
structure EditorState where
  cx : Int
  cy : Int
  rowoff : Int
  coloff : Int
  screenrows : Int
  screencols : Int
  row : List Erow
deriving DecidableEq

/-- `E.numrows` (kept equal to the length of `E.row`). -/
def EditorState.numrows (s : EditorState) : Int := s.row.length

/-- `(E.cy >= E.numrows) ? NULL : &E.row[E.cy]` — the row under the cursor,
absent on the virtual line past the last row. -/
def EditorState.currentRow (s : EditorState) : Option Erow :=
  if s.cy ≥ s.numrows then none else s.row.get? s.cy.toNat

/-- `row ? row->size : 0` for the row under the cursor. -/
def EditorState.currentRowLen (s : EditorState) : Int :=
  match s.currentRow with
  | some r => (r.chars.length : Int)
  | none => 0

/-! ### editorScroll -/

/-- `editorScroll`: four sequential corrections to the scroll offsets;
the cursor itself is never written.  (The transcription reads `E.ct` in
the first guard; the state struct has no such field and both the earlier
vertical-only version and the surrounding prose give `E.cy`.) -/
def editorScroll (s : EditorState) : EditorState :=
  let r1 := if s.cy < s.rowoff then s.cy else s.rowoff
  let r2 := if s.cy ≥ r1 + s.screenrows then s.cy - s.screenrows + 1 else r1
  let c1 := if s.cx < s.coloff then s.cx else s.coloff
  let c2 := if s.cx ≥ c1 + s.screencols then s.cx - s.screencols + 1 else c1
  { s with rowoff := r2, coloff := c2 }

/-! ### editorMoveCursor -/

/-- `E.row[i].size` for a direct (unchecked in C) index; out-of-range reads
are undefined behaviour in the source and modelled as 0. -/
def rowSizeAt (rows : List Erow) (i : Int) : Int :=
  match rows.get? i.toNat with
  | some r => (r.chars.length : Int)
  | none => 0

/-- The `switch (key)` body of the final `editorMoveCursor`: left wraps to
the end of the previous row, right wraps to column 0 of the next line,
up/down stay within `[0, numrows]`. -/
def moveStep (s : EditorState) (key : Nat) : EditorState :=
  if key = ARROW_LEFT then
    if s.cx ≠ 0 then { s with cx := s.cx - 1 }
    else if s.cy > 0 then
      { s with cy := s.cy - 1, cx := rowSizeAt s.row (s.cy - 1) }
    else s
  else if key = ARROW_RIGHT then
    match s.currentRow with
    | some r =>
      if s.cx < (r.chars.length : Int) then { s with cx := s.cx + 1 }
      else if s.cx = (r.chars.length : Int) then { s with cy := s.cy + 1, cx := 0 }
      else s
    | none => s
  else if key = ARROW_UP then
    if s.cy ≠ 0 then { s with cy := s.cy - 1 } else s
  else if key = ARROW_DOWN then
    if s.cy < s.numrows then { s with cy := s.cy + 1 } else s
  else s

/-- The trailing clamp of `editorMoveCursor`: re-resolve the row under the
(possibly moved) cursor and pull `cx` down to its length. -/
def clampCx (s : EditorState) : EditorState :=
  if s.cx > s.currentRowLen then { s with cx := s.currentRowLen } else s

/-- `editorMoveCursor`: the movement switch followed by the snap of `cx`
to the new row's length. -/
def editorMoveCursor (s : EditorState) (key : Nat) : EditorState :=
  clampCx (moveStep s key)

/-! ### editorProcessKeypress -/

/-- The `while (times--)` page-move loop. -/
def repeatMove (s : EditorState) (key : Nat) : Nat → EditorState
  | 0 => s
  | n + 1 => repeatMove (editorMoveCursor s key) key n

/-- `editorProcessKeypress` on an already-decoded key: `none` models the
`exit(0)` of the quit chord, otherwise the updated state.  `End` moves to
the right edge of the screen (`E.cx = E.screencols - 1`). -/
def editorProcessKeypress (s : EditorState) (c : Nat) : Option EditorState :=
  if c = CTRL_Q then none
  else if c = HOME_KEY then some { s with cx := 0 }
  else if c = END_KEY then some { s with cx := s.screencols - 1 }
  else if c = PAGE_UP then some (repeatMove s ARROW_UP s.screenrows.toNat)
  else if c = PAGE_DOWN then some (repeatMove s ARROW_DOWN s.screenrows.toNat)
  else if c = ARROW_UP ∨ c = ARROW_DOWN ∨ c = ARROW_LEFT ∨ c = ARROW_RIGHT then
    some (editorMoveCursor s c)
  else some s

/-! ### editorReadKey -/

/-- The `switch (seq[1])` under `seq[2] == '~'` (digit escape sequences;
default falls through to `return '\x1b'`). -/
def decodeTildeDigit (b1 : Nat) : Nat :=
  if b1 = 49 then HOME_KEY
  else if b1 = 51 then DEL_KEY
  else if b1 = 52 then END_KEY
  else if b1 = 53 then PAGE_UP
  else if b1 = 54 then PAGE_DOWN
  else if b1 = 55 then HOME_KEY
  else if b1 = 56 then END_KEY
  else 27

/-- The `switch (seq[1])` for letter sequences after `ESC [`. -/
def decodeBracketLetter (b1 : Nat) : Nat :=
  if b1 = 65 then ARROW_UP
  else if b1 = 66 then ARROW_DOWN
  else if b1 = 67 then ARROW_RIGHT
  else if b1 = 68 then ARROW_LEFT
  else if b1 = 72 then HOME_KEY
  else if b1 = 70 then END_KEY
  else 27

/-- The `switch (seq[1])` after `ESC O`. -/
def decodeOLetter (b1 : Nat) : Nat :=
  if b1 = 72 then HOME_KEY
  else if b1 = 70 then END_KEY
  else 27

/-- The third read and `~` check of the digit branch. -/
def decodeDigitSeq (b1 : Nat) (s2 : List (Option Nat)) : Nat :=
  match s2 with
  | some b2 :: _ => if b2 = 126 then decodeTildeDigit b1 else 27
  | _ => 27

/-- `editorReadKey`: `c` is the byte delivered by the initial blocking read
loop; `s` is the stream of subsequent single read attempts (`none` = the
100ms timeout expired with no byte).  Mirrors the final version of the
decoder (with `DEL_KEY`): both follow-up reads must yield a byte, then the
branches on `[`/`O` and digit/letter follow the C switches. -/
def editorReadKey (c : Nat) (s : List (Option Nat)) : Nat :=
  if c = 27 then
    match s with
    | some b0 :: some b1 :: s2 =>
      if b0 = 91 then
        if 48 ≤ b1 ∧ b1 ≤ 57 then decodeDigitSeq b1 s2
        else decodeBracketLetter b1
      else if b0 = 79 then decodeOLetter b1
      else 27
    | _ => 27
  else c

/-- The digit table as the specification lists it: 1 or 7→Home, 3→Delete,
4 or 8→End, 5→PageUp, 6→PageDown, otherwise Escape. -/
def specTildeDigit (b1 : Nat) : Nat :=
  if b1 = 49 ∨ b1 = 55 then HOME_KEY
  else if b1 = 51 then DEL_KEY
  else if b1 = 52 ∨ b1 = 56 then END_KEY
  else if b1 = 53 then PAGE_UP
  else if b1 = 54 then PAGE_DOWN
  else 27

/-- After `ESC [`, the table as the specification lists it: a letter in
{A,B,C,D,H,F} maps directly, otherwise the sequence maps through the
digit-`~` table, and anything else is Escape. -/
def specBracketSeq (b1 : Nat) (rest : List (Option Nat)) : Nat :=
  if b1 = 65 then ARROW_UP
  else if b1 = 66 then ARROW_DOWN
  else if b1 = 67 then ARROW_RIGHT
  else if b1 = 68 then ARROW_LEFT
  else if b1 = 72 then HOME_KEY
  else if b1 = 70 then END_KEY
  else
    match rest with
    | some b2 :: _ => if b2 = 126 then specTildeDigit b1 else 27
    | _ => 27

/-- The decoding table as the specification states it, for comparison with
`editorReadKey`: after an escape byte, a timeout gives Escape; `ESC [`
sequences map through `specBracketSeq`; `ESC O` plus H/F maps to Home/End;
every other sequence is Escape. -/
def specDecodeEsc (s : List (Option Nat)) : Nat :=
  match s with
  | some b0 :: some b1 :: rest =>
    if b0 = 91 then specBracketSeq b1 rest
    else if b0 = 79 then decodeOLetter b1
    else 27
  | _ => 27

/-! ### Append buffer (abuf) -/

/-- `struct abuf`: a heap byte block and its length (`len` is a C `int`). -/
structure Abuf where
  b : List Nat
  len : Int
deriving DecidableEq

/-- `abAppend`, with the outcome of `realloc` made explicit: when it
returns NULL (`ok = false`) the function returns at once, leaving the
buffer untouched; otherwise `realloc` carries the old bytes over, `memcpy`
places `s` after them, and `len` grows by the appended length. -/
def abAppend (ab : Abuf) (s : List Nat) (ok : Bool) : Abuf :=
  if ok then { b := ab.b ++ s, len := ab.len + s.length } else ab

/-! ### getCursorPosition (window-size fallback) -/

/-- The read loop of `getCursorPosition`: collect bytes into `buf` while
`i < sizeof(buf) - 1 = 31`, stopping at a failed read (timeout) or at the
terminator `R` (82), which is not stored. -/
def collectLoop : Nat → List (Option Nat) → List Nat
  | 0, _ => []
  | _ + 1, [] => []
  | _ + 1, none :: _ => []
  | n + 1, some b :: rest => if b = 82 then [] else b :: collectLoop n rest

def isDigitByte (b : Nat) : Bool := 48 ≤ b && b ≤ 57

/-- `sscanf` whitespace: space, tab, newline, vertical tab, form feed,
carriage return. -/
def isSpaceByte (b : Nat) : Bool := b = 32 || (9 ≤ b && b ≤ 13)

/-- Decimal value of a digit string (most significant first). -/
def digitsVal (ds : List Nat) : Nat :=
  ds.foldl (fun a d => a * 10 + (d - 48)) 0

/-- The optional sign of a `%d` conversion: `-` (45) or `+` (43) before
the digits, with the remaining input. -/
def scanSignSplit (l1 : List Nat) : Int × List Nat :=
  match l1 with
  | b :: t => if b = 45 then (-1, t) else if b = 43 then (1, t) else (1, b :: t)
  | [] => (1, [])

/-- One `%d` conversion of `sscanf`: skip whitespace, an optional sign,
then a nonempty maximal digit run; `none` when no digit is found. -/
def scanInt (l : List Nat) : Option (Int × List Nat) :=
  let sl := scanSignSplit (l.dropWhile isSpaceByte)
  let ds := sl.2.takeWhile isDigitByte
  if ds = [] then none
  else some (sl.1 * (digitsVal ds : Int), sl.2.dropWhile isDigitByte)

/-- `sscanf(buf, "%d;%d", ...)`: both conversions must succeed with a
literal `;` (59) in between; the parsed pair is `(rows, cols)`. -/
def sscanfDD (l : List Nat) : Option (Int × Int) :=
  match scanInt l with
  | some (a, l1) =>
    match l1 with
    | c :: l2 =>
      if c = 59 then
        match scanInt l2 with
        | some (b, _) => some (a, b)
        | none => none
      else none
    | [] => none
  | none => none

/-- The parse step of `getCursorPosition` on the collected bytes:
`if (buf[0] != '\x1b' || buf[1] != '[') return -1;` then `sscanf` on
`&buf[2]` (read as a C string, so up to the first NUL) must give two
`;`-separated integers.  A buffer shorter than two bytes fails the guard
(the NUL placed at `buf[i]` is neither ESC nor `[`). -/
def parseReply (buf : List Nat) : Option (Int × Int) :=
  match buf with
  | b0 :: b1 :: rest =>
    if b0 = 27 then
      if b1 = 91 then sscanfDD (rest.takeWhile (fun b => b != 0)) else none
    else none
  | _ => none

/-- `getCursorPosition` on the input stream (after the `ESC [ 6 n` query
was written): `none` models the `-1` error return, `some (rows, cols)` the
successful fill of the out-parameters. -/
def getCursorPosition (stream : List (Option Nat)) : Option (Int × Int) :=
  parseReply (collectLoop 31 stream)

/-- A well-formed cursor-position report: `ESC [ rows ; cols R` with the
two numbers given as digit strings. -/
def cprBytes (ds1 ds2 : List Nat) : List Nat :=
  [27, 91] ++ ds1 ++ [59] ++ ds2 ++ [82]

/-! ### Concrete fixture states -/

/-- 24×80 screen, cursor at logical position (30, 5), fresh offsets. -/
def sampleState : EditorState :=
  { cx := 5, cy := 30, rowoff := 0, coloff := 0,
    screenrows := 24, screencols := 80, row := [] }

/-- One-row buffer (content "a"), cursor at the end of that last row. -/
def lastRowState : EditorState :=
  { cx := 1, cy := 0, rowoff := 0, coloff := 0,
    screenrows := 24, screencols := 80, row := [⟨[97], [97]⟩] }

/-- Two-row buffer ("ab", "xyz"), cursor at the end of the first row. -/
def twoRowState : EditorState :=
  { cx := 2, cy := 0, rowoff := 0, coloff := 0,
    screenrows := 24, screencols := 80, row := [⟨[97, 98], [97, 98]⟩, ⟨[120, 121, 122], [120, 121, 122]⟩] }

/-- One-row buffer (content "abc"), cursor at the origin, 24×80 screen. -/
def endKeyState : EditorState :=
  { cx := 0, cy := 0, rowoff := 0, coloff := 0,
    screenrows := 24, screencols := 80, row := [⟨[97, 98, 99], [97, 98, 99]⟩] }

/-! ### Helper lemmas -/

lemma renderLoop_length_le (cs : List Nat) :
    ∀ idx, cs.length ≤ (renderLoop idx cs).length := by
  induction cs with
  | nil => intro idx; simp [renderLoop]
  | cons c cs ih =>
    intro idx
    by_cases hc : c = 9
    · have h1 : 1 ≤ KILO_TAB_STOP - idx % KILO_TAB_STOP := by
        have : idx % KILO_TAB_STOP < KILO_TAB_STOP := Nat.mod_lt _ (by decide)
        omega
      simp only [renderLoop, if_pos hc, List.length_append, List.length_replicate,
        List.length_cons]
      have := ih (idx + (KILO_TAB_STOP - idx % KILO_TAB_STOP))
      omega
    · simp only [renderLoop, if_neg hc, List.length_cons]
      have := ih (idx + 1)
      omega

lemma renderLoop_length_ge (cs : List Nat) :
    ∀ idx, (renderLoop idx cs).length ≤ cs.length + 7 * tabCount cs := by
  induction cs with
  | nil => intro idx; simp [renderLoop, tabCount]
  | cons c cs ih =>
    intro idx
    by_cases hc : c = 9
    · have h8 : KILO_TAB_STOP - idx % KILO_TAB_STOP ≤ 8 := by
        have : idx % KILO_TAB_STOP < KILO_TAB_STOP := Nat.mod_lt _ (by decide)
        simp only [KILO_TAB_STOP] at *
        omega
      subst hc
      have := ih (idx + (KILO_TAB_STOP - idx % KILO_TAB_STOP))
      simp only [tabCount] at this ⊢
      simp only [renderLoop, if_pos rfl, List.length_append, List.length_replicate,
        List.length_cons, List.count_cons]
      simp
      omega
    · have := ih (idx + 1)
      simp only [tabCount] at this ⊢
      have hbeq : (c == 9) = false := by simpa using hc
      simp only [renderLoop, if_neg hc, List.length_cons, List.count_cons, hbeq]
      simp
      omega

lemma renderLoop_no_tab (cs : List Nat) : ∀ idx, ¬ 9 ∈ renderLoop idx cs := by
  induction cs with
  | nil => intro idx; simp [renderLoop]
  | cons c cs ih =>
    intro idx
    by_cases hc : c = 9
    · simp only [renderLoop, if_pos hc, List.mem_append, List.mem_replicate]
      rintro (⟨-, h⟩ | h)
      · omega
      · exact ih _ h
    · simp only [renderLoop, if_neg hc, List.mem_cons]
      rintro (h | h)
      · exact hc h.symm
      · exact ih _ h

lemma tildeDigit_eq_spec (b1 : Nat) : decodeTildeDigit b1 = specTildeDigit b1 := by
  unfold decodeTildeDigit specTildeDigit
  split_ifs <;> first | rfl | omega

lemma specTildeDigit_of_not_digit (b1 : Nat) (hd : ¬(48 ≤ b1 ∧ b1 ≤ 57)) :
    specTildeDigit b1 = 27 := by
  unfold specTildeDigit
  split_ifs <;> first | rfl | omega

lemma bracketSeq_eq_spec (b1 : Nat) (s2 : List (Option Nat)) :
    (if 48 ≤ b1 ∧ b1 ≤ 57 then decodeDigitSeq b1 s2 else decodeBracketLetter b1)
      = specBracketSeq b1 s2 := by
  by_cases hd : 48 ≤ b1 ∧ b1 ≤ 57
  · rw [if_pos hd]
    unfold specBracketSeq
    rw [if_neg (by omega), if_neg (by omega), if_neg (by omega), if_neg (by omega),
      if_neg (by omega), if_neg (by omega)]
    unfold decodeDigitSeq
    rcases s2 with _ | ⟨o2, s3⟩
    · rfl
    rcases o2 with _ | b2
    · rfl
    dsimp only
    by_cases h126 : b2 = 126
    · rw [if_pos h126, if_pos h126, tildeDigit_eq_spec]
    · rw [if_neg h126, if_neg h126]
  · rw [if_neg hd]
    unfold specBracketSeq
    rcases s2 with _ | ⟨o2, s3⟩
    · rfl
    rcases o2 with _ | b2
    · rfl
    dsimp only
    rw [specTildeDigit_of_not_digit b1 hd, ite_self]
    rfl

lemma currentRowLen_set_cx (s : EditorState) (v : Int) :
    EditorState.currentRowLen { s with cx := v } = s.currentRowLen := rfl

lemma currentRowLen_nonneg (s : EditorState) : 0 ≤ s.currentRowLen := by
  unfold EditorState.currentRowLen
  cases s.currentRow with
  | some r => exact Int.ofNat_nonneg _
  | none => exact le_refl 0

lemma takeDropWhile_append (p : Nat → Bool) (l r : List Nat)
    (hl : ∀ b ∈ l, p b = true) (hr : ∀ x, r.head? = some x → p x = false) :
    (l ++ r).takeWhile p = l ∧ (l ++ r).dropWhile p = r := by
  induction l with
  | nil =>
    simp only [List.nil_append]
    cases r with
    | nil => simp
    | cons x t =>
      have hx := hr x rfl
      simp [List.takeWhile_cons, List.dropWhile_cons, hx]
  | cons a t ih =>
    have ha : p a = true := hl a (List.mem_cons_self a t)
    have := ih (fun b hb => hl b (List.mem_cons_of_mem a hb))
    simp only [List.cons_append, List.takeWhile_cons, List.dropWhile_cons, ha,
      if_true, if_pos]
    exact ⟨by rw [this.1], by rw [this.2]⟩

lemma collectLoop_until_R (l : List Nat) :
    ∀ (fuel : Nat) (rest : List (Option Nat)), (∀ b ∈ l, b ≠ 82) →
      l.length < fuel → collectLoop fuel (l.map some ++ some 82 :: rest) = l := by
  induction l with
  | nil =>
    intro fuel rest h hlen
    cases fuel with
    | zero => omega
    | succ n => simp [collectLoop]
  | cons a t ih =>
    intro fuel rest h hlen
    cases fuel with
    | zero => omega
    | succ n =>
      have ha : a ≠ 82 := h a (List.mem_cons_self a t)
      simp only [List.map_cons, List.cons_append, collectLoop, if_neg ha]
      exact congrArg (List.cons a) (ih n rest
        (fun b hb => h b (List.mem_cons_of_mem a hb))
        (by simp only [List.length_cons] at hlen; omega))

lemma scanInt_digit_run (ds r : List Nat) (hne : ds ≠ [])
    (hd : ∀ b ∈ ds, isDigitByte b = true)
    (hr : ∀ x, r.head? = some x → isDigitByte x = false) :
    scanInt (ds ++ r) = some ((digitsVal ds : Int), r) := by
  obtain ⟨d0, ds', rfl⟩ : ∃ d0 ds', ds = d0 :: ds' := by
    cases ds with
    | nil => exact absurd rfl hne
    | cons a t => exact ⟨a, t, rfl⟩
  have hd0 : isDigitByte d0 = true := hd d0 (List.mem_cons_self d0 ds')
  have hd0' : 48 ≤ d0 ∧ d0 ≤ 57 := by
    simpa [isDigitByte] using hd0
  have hsp : ¬ isSpaceByte d0 = true := by
    simp [isSpaceByte]
    omega
  have h45 : ¬ d0 = 45 := by omega
  have h43 : ¬ d0 = 43 := by omega
  have htd := takeDropWhile_append isDigitByte ds' r
    (fun b hb => hd b (List.mem_cons_of_mem d0 hb)) hr
  have e1 : List.dropWhile isSpaceByte (d0 :: (ds' ++ r)) = d0 :: (ds' ++ r) := by
    rw [List.dropWhile_cons, if_neg hsp]
  have e2 : scanSignSplit (d0 :: (ds' ++ r)) = (1, d0 :: (ds' ++ r)) := by
    unfold scanSignSplit
    dsimp only
    rw [if_neg h45, if_neg h43]
  have e3 : List.takeWhile isDigitByte (d0 :: (ds' ++ r)) = d0 :: ds' := by
    rw [List.takeWhile_cons, if_pos hd0, htd.1]
  have e4 : List.dropWhile isDigitByte (d0 :: (ds' ++ r)) = r := by
    rw [List.dropWhile_cons, if_pos hd0, htd.2]
  unfold scanInt
  rw [List.cons_append, e1, e2]
  dsimp only
  rw [e3, e4, if_neg (List.cons_ne_nil d0 ds')]
  rw [one_mul]

lemma parseReply_none_iff (buf : List Nat) :
    parseReply buf = none ↔
      (buf.take 2 ≠ [27, 91]
        ∨ sscanfDD ((buf.drop 2).takeWhile (fun b => b != 0)) = none) := by
  rcases buf with _ | ⟨a, _ | ⟨b, t⟩⟩
  · simp [parseReply]
  · simp [parseReply]
  · by_cases ha : a = 27
    · by_cases hb : b = 91
      · subst ha; subst hb
        simp [parseReply]
      · subst ha
        simp [parseReply, hb]
    · simp [parseReply, ha]

/-! ### Claim theorems -/

/-- Claim C3: `editorUpdateRow` renders by tab expansion at tab stop 8 —
each tab becomes one space plus spaces up to the next multiple of 8; the
content "a\t b" (bytes 97, 9, 98) renders to "a", seven spaces, "b"
(9 characters); the rendered form contains no tab bytes and is at least as
long as the content. -/
theorem editorUpdateRow_tab_expansion :
    (editorUpdateRow { chars := [97, 9, 98], render := [] }).render
        = [97] ++ List.replicate 7 32 ++ [98]
    ∧ (∀ row : Erow, ¬ 9 ∈ (editorUpdateRow row).render)
    ∧ (∀ row : Erow, row.chars.length ≤ (editorUpdateRow row).render.length) := by
  refine ⟨by decide, fun row => ?_, fun row => ?_⟩
  · exact renderLoop_no_tab row.chars 0
  · exact renderLoop_length_le row.chars 0

/-- Claim C10: the final write index of `editorUpdateRow` (the rendered
length `rsize`) satisfies `size ≤ rsize ≤ size + 7·tabs`, so even with the
terminating NUL byte the writes stay within the allocation of
`size + 7·tabs + 1` bytes. -/
theorem editorUpdateRow_render_bounds (row : Erow) :
    row.chars.length ≤ (editorUpdateRow row).render.length
    ∧ (editorUpdateRow row).render.length ≤ row.chars.length + 7 * tabCount row.chars
    ∧ (editorUpdateRow row).render.length + 1
        ≤ row.chars.length + 7 * tabCount row.chars + 1 := by
  refine ⟨renderLoop_length_le row.chars 0, renderLoop_length_ge row.chars 0, ?_⟩
  have := renderLoop_length_ge row.chars 0
  simpa [editorUpdateRow] using Nat.add_le_add_right this 1

/-- Claim C1: with positive screen dimensions, one `editorScroll` call
establishes `rowoff ≤ cy < rowoff + screenrows` and
`coloff ≤ cx < coloff + screencols`, and moves only the offsets, never the
cursor. -/
theorem editorScroll_establishes_visibility (s : EditorState)
    (hr : 0 < s.screenrows) (hc : 0 < s.screencols) :
    (editorScroll s).rowoff ≤ (editorScroll s).cy
    ∧ (editorScroll s).cy < (editorScroll s).rowoff + (editorScroll s).screenrows
    ∧ (editorScroll s).coloff ≤ (editorScroll s).cx
    ∧ (editorScroll s).cx < (editorScroll s).coloff + (editorScroll s).screencols
    ∧ (editorScroll s).cx = s.cx
    ∧ (editorScroll s).cy = s.cy := by
  unfold editorScroll
  dsimp only
  split_ifs <;> refine ⟨by omega, by omega, by omega, by omega, rfl, rfl⟩

/-- Witness for C1 at a concrete state: 24×80 screen, cursor at (30, 5),
offsets 0; the call lands `rowoff` at 7. -/
theorem editorScroll_establishes_visibility_witness :
    (0 < sampleState.screenrows ∧ 0 < sampleState.screencols)
    ∧ ((editorScroll sampleState).rowoff ≤ (editorScroll sampleState).cy
    ∧ (editorScroll sampleState).cy
        < (editorScroll sampleState).rowoff + (editorScroll sampleState).screenrows
    ∧ (editorScroll sampleState).coloff ≤ (editorScroll sampleState).cx
    ∧ (editorScroll sampleState).cx
        < (editorScroll sampleState).coloff + (editorScroll sampleState).screencols
    ∧ (editorScroll sampleState).cx = sampleState.cx
    ∧ (editorScroll sampleState).cy = sampleState.cy) :=
  ⟨⟨by decide, by decide⟩,
    editorScroll_establishes_visibility sampleState (by decide) (by decide)⟩

/-- Claim C6: after any `editorMoveCursor` call, `cx` does not exceed the
length of the row now under the cursor (taken as 0 on the virtual line past
the last row), because the trailing clamp re-resolves the row and snaps
`cx` down. -/
theorem editorMoveCursor_clamps_cx (s : EditorState) (key : Nat) :
    (editorMoveCursor s key).cx ≤ (editorMoveCursor s key).currentRowLen := by
  unfold editorMoveCursor clampCx
  by_cases h : (moveStep s key).cx > (moveStep s key).currentRowLen
  · rw [if_pos h]
    exact le_of_eq
      (currentRowLen_set_cx (moveStep s key) (moveStep s key).currentRowLen).symm
  · rw [if_neg h]
    omega

/-- Counterexample to claim C5 as stated: with the cursor at the end
(cx = 1) of the last row (content "a") of a one-row buffer, ArrowRight is
not a no-op — the cursor moves to column 0 of the virtual line past the
last row (cy becomes 1 = numrows). -/
theorem moveRight_lastRow_not_noop :
    lastRowState.cy = 0 ∧ lastRowState.cx = 1 ∧ lastRowState.row.length = 1
    ∧ lastRowState.cx = lastRowState.currentRowLen
    ∧ (editorMoveCursor lastRowState ARROW_RIGHT).cy = 1
    ∧ (editorMoveCursor lastRowState ARROW_RIGHT).cx = 0
    ∧ editorMoveCursor lastRowState ARROW_RIGHT ≠ lastRowState := by decide

/-- Claim C5 amended: with the cursor at the end of the row under it
(`cx = currentRowLen`), ArrowRight moves to column 0 of the next line
whenever a row is under the cursor (`cy < numrows`) — including from the
last row, where the destination is the virtual line past the buffer — and
is a no-op only on that virtual line (`cy = numrows`, where end-of-row
means `cx = 0`). -/
theorem moveRight_at_end_of_row (s : EditorState) (h0 : 0 ≤ s.cy)
    (hcy : s.cy ≤ s.numrows) (hend : s.cx = s.currentRowLen) :
    editorMoveCursor s ARROW_RIGHT =
      if s.cy < s.numrows then { s with cy := s.cy + 1, cx := 0 } else s := by
  by_cases hlt : s.cy < s.numrows
  · rw [if_pos hlt]
    have hrow : s.currentRow = some (s.row.get ⟨s.cy.toNat, by
        simp only [EditorState.numrows] at hlt
        omega⟩) := by
      unfold EditorState.currentRow
      rw [if_neg (by omega)]
      exact List.get?_eq_get _
    have hlen : s.currentRowLen
        = ((s.row.get ⟨s.cy.toNat, by
            simp only [EditorState.numrows] at hlt
            omega⟩).chars.length : Int) := by
      unfold EditorState.currentRowLen
      rw [hrow]
    unfold editorMoveCursor moveStep
    rw [hrow]
    dsimp only
    rw [if_neg (by decide), if_pos rfl]
    rw [if_neg (by rw [hend, hlen]; omega), if_pos (by rw [hend, hlen])]
    unfold clampCx
    rw [if_neg (by
      have := currentRowLen_nonneg { s with cy := s.cy + 1, cx := 0 }
      dsimp only at this ⊢
      omega)]
  · rw [if_neg hlt]
    have hcyeq : s.cy = s.numrows := le_antisymm hcy (by omega)
    have hrow : s.currentRow = none := by
      unfold EditorState.currentRow
      rw [if_pos (le_of_eq hcyeq.symm)]
    have hcx : s.cx = 0 := by
      rw [hend]
      unfold EditorState.currentRowLen
      rw [hrow]
    unfold editorMoveCursor moveStep
    rw [hrow]
    dsimp only
    rw [if_neg (by decide), if_pos rfl]
    unfold clampCx
    rw [if_neg (by
      have := currentRowLen_nonneg s
      omega)]

/-- Witness for the amended C5 at a concrete state: a two-row buffer with
the cursor at the end of row 0 moves to (1, 0). -/
theorem moveRight_at_end_of_row_witness :
    (0 ≤ twoRowState.cy ∧ twoRowState.cy ≤ twoRowState.numrows
      ∧ twoRowState.cx = twoRowState.currentRowLen)
    ∧ editorMoveCursor twoRowState ARROW_RIGHT =
        (if twoRowState.cy < twoRowState.numrows
          then { twoRowState with cy := twoRowState.cy + 1, cx := 0 }
          else twoRowState) :=
  ⟨⟨by decide, by decide, by decide⟩,
    moveRight_at_end_of_row twoRowState (by decide) (by decide) (by decide)⟩

/-- Counterexample to claim C4 as stated: on a buffer whose current row has
length 3 and a screen 80 columns wide, dispatching End sets `cx` to 79
(`screencols - 1`), not to the row length 3. -/
theorem endKey_not_row_length :
    endKeyState.currentRowLen = 3
    ∧ endKeyState.screencols = 80
    ∧ editorProcessKeypress endKeyState END_KEY = some { endKeyState with cx := 79 }
    ∧ editorProcessKeypress endKeyState END_KEY ≠ some { endKeyState with cx := 3 } := by
  decide

/-- Claim C4 amended: dispatching the End key sets `cx` to
`screencols - 1` (the right edge of the screen); `cy` and the rest of the
state are unchanged. -/
theorem endKey_sets_cx_right_edge (s : EditorState) :
    editorProcessKeypress s END_KEY = some { s with cx := s.screencols - 1 } := by
  unfold editorProcessKeypress
  rw [if_neg (by decide), if_neg (by decide), if_pos rfl]

/-- Claim C9: `abAppend` leaves the buffer exactly as it was (bytes and
length) when `realloc` fails, and on success grows the length by exactly
the appended length with the prior bytes preserved as a prefix. -/
theorem abAppend_alloc_behavior (ab : Abuf) (s : List Nat) :
    abAppend ab s false = ab
    ∧ (abAppend ab s true).len = ab.len + s.length
    ∧ (abAppend ab s true).b = ab.b ++ s
    ∧ (abAppend ab s true).b.take ab.b.length = ab.b := by
  refine ⟨rfl, rfl, rfl, ?_⟩
  simp only [abAppend, if_pos]
  exact List.take_left ab.b s

lemma dropWhile_reverse_of_last_not_eol (l : List Nat)
    (h10 : l.getLast? ≠ some 10) (h13 : l.getLast? ≠ some 13) :
    l.reverse.dropWhile (fun b => b = 10 || b = 13) = l.reverse := by
  cases hrev : l.reverse with
  | nil => simp
  | cons b t =>
    have hb : l.getLast? = some b := by
      rw [← List.head?_reverse, hrev]
      rfl
    have hb10 : b ≠ 10 := fun h => h10 (h ▸ hb)
    have hb13 : b ≠ 13 := fun h => h13 (h ▸ hb)
    rw [List.dropWhile_cons, if_neg (by simp [hb10, hb13])]

lemma editorOpenLine_content (rows : List Erow) (x : List Nat) :
    ((editorOpenLine rows x).getLast?).map Erow.chars = some (stripTrailingEOL x) := by
  unfold editorOpenLine editorAppendRow
  rw [List.getLast?_concat]
  rfl

/-- Counterexample to claim C7 as stated: the bytes "a\r\r\n" end in the
terminator "\r\n", so the claim predicts the stored content "a\r"; the
code's strip loop removes the whole trailing run of CR/LF bytes and stores
"a". -/
theorem strip_eats_body_trailing_cr :
    ([97, 13, 13, 10] : List Nat) = [97, 13] ++ [13, 10]
    ∧ ((editorOpenLine [] [97, 13, 13, 10]).getLast?).map Erow.chars = some [97]
    ∧ some ([97] : List Nat) ≠ some [97, 13] := by decide

/-- Claim C7 amended: appending a byte sequence ending in one `\n` or one
`\r\n` and reading back the stored content yields the original bytes with
that terminator removed, provided the body itself does not end in a `\r`
or `\n` byte; the strip loop removes the whole maximal trailing run of
`\r`/`\n` bytes, so further trailing terminator bytes in the body are
removed as well. -/
theorem append_roundtrip_strips_one_terminator (rows : List Erow) (l : List Nat)
    (h10 : l.getLast? ≠ some 10) (h13 : l.getLast? ≠ some 13) :
    ((editorOpenLine rows (l ++ [10])).getLast?).map Erow.chars = some l
    ∧ ((editorOpenLine rows (l ++ [13, 10])).getLast?).map Erow.chars = some l := by
  have hcore := dropWhile_reverse_of_last_not_eol l h10 h13
  have e1 : (l ++ [10]).reverse = 10 :: l.reverse := by simp
  have e2 : (l ++ [13, 10]).reverse = 10 :: 13 :: l.reverse := by simp
  constructor
  · rw [editorOpenLine_content]
    unfold stripTrailingEOL
    rw [e1, List.dropWhile_cons, if_pos (by simp), hcore, List.reverse_reverse]
  · rw [editorOpenLine_content]
    unfold stripTrailingEOL
    rw [e2, List.dropWhile_cons, if_pos (by simp), List.dropWhile_cons,
      if_pos (by simp), hcore, List.reverse_reverse]

/-- Witness for the amended C7: the two-byte body "ki" round-trips under
both terminator styles. -/
theorem append_roundtrip_strips_one_terminator_witness :
    (([107, 105] : List Nat).getLast? ≠ some 10
      ∧ ([107, 105] : List Nat).getLast? ≠ some 13)
    ∧ ((editorOpenLine [] ([107, 105] ++ [10])).getLast?).map Erow.chars
        = some [107, 105]
    ∧ ((editorOpenLine [] ([107, 105] ++ [13, 10])).getLast?).map Erow.chars
        = some [107, 105] :=
  ⟨⟨by decide, by decide⟩,
    append_roundtrip_strips_one_terminator [] [107, 105] (by decide) (by decide)⟩

/-- Claim C2: `editorReadKey` returns a non-escape first byte as itself,
and decodes an escape byte exactly by the specified table (`specDecodeEsc`):
timeout → Escape; `ESC [` + A/B/C/D/H/F → arrows/Home/End; `ESC [` + digit
+ `~` with 1/7→Home, 3→Delete, 4/8→End, 5→PageUp, 6→PageDown; `ESC O` +
H/F → Home/End; anything else → Escape. -/
theorem editorReadKey_decodes (c : Nat) (s : List (Option Nat)) :
    editorReadKey c s = if c = 27 then specDecodeEsc s else c := by
  by_cases hc : c = 27
  · subst hc
    rw [if_pos rfl]
    rcases s with _ | ⟨o0, s1⟩
    · rfl
    rcases o0 with _ | b0
    · rfl
    rcases s1 with _ | ⟨o1, s2⟩
    · rfl
    rcases o1 with _ | b1
    · rfl
    unfold editorReadKey specDecodeEsc
    rw [if_pos rfl]
    dsimp only
    by_cases hb0 : b0 = 91
    · rw [if_pos hb0, if_pos hb0]
      exact bracketSeq_eq_spec b1 s2
    · rw [if_neg hb0, if_neg hb0]
  · rw [if_neg hc]
    unfold editorReadKey
    rw [if_neg hc]

/-- Counterexample to claim C8 as stated: the syntactically well-formed
reply `ESC [ 0000000000000000000000000001 ; 80 R` (28-digit zero-padded
rows field of value 1) does not fit the 32-byte reply buffer, so the
collect loop stops after 31 stored bytes without ever seeing the
terminator and the parse fails with -1 instead of returning (1, 80). -/
theorem getCursorPosition_long_reply_fails :
    (∀ b ∈ (List.replicate 27 48 ++ [49] : List Nat), isDigitByte b = true)
    ∧ (List.replicate 27 48 ++ [49] : List Nat) ≠ []
    ∧ digitsVal (List.replicate 27 48 ++ [49]) = 1
    ∧ digitsVal [56, 48] = 80
    ∧ getCursorPosition
        ((cprBytes (List.replicate 27 48 ++ [49]) [56, 48]).map some ++ []) = none
    ∧ getCursorPosition
        ((cprBytes (List.replicate 27 48 ++ [49]) [56, 48]).map some ++ [])
        ≠ some (1, 80) := by decide

/-- Claim C8 amended: the `getCursorPosition` window-size fallback fails
exactly when the bytes collected before the terminator `R` do not begin
with `ESC [` or do not scan as two `;`-separated integers, and on a
well-formed reply `ESC [ rows ; cols R` whose digit strings are at most
10 bytes each (every C-int value, without excess zero padding — longer
replies overflow the fixed 32-byte buffer) it succeeds with exactly those
two numbers. -/
theorem getCursorPosition_reply_parsing (ds1 ds2 : List Nat)
    (rest stream : List (Option Nat))
    (h1 : ds1 ≠ []) (h2 : ds2 ≠ [])
    (hd1 : ∀ b ∈ ds1, isDigitByte b = true)
    (hd2 : ∀ b ∈ ds2, isDigitByte b = true)
    (hl1 : ds1.length ≤ 10) (hl2 : ds2.length ≤ 10) :
    getCursorPosition ((cprBytes ds1 ds2).map some ++ rest)
        = some ((digitsVal ds1 : Int), (digitsVal ds2 : Int))
    ∧ (getCursorPosition stream = none ↔
        ((collectLoop 31 stream).take 2 ≠ [27, 91]
          ∨ sscanfDD (((collectLoop 31 stream).drop 2).takeWhile (fun b => b != 0))
              = none)) := by
  constructor
  · have hpre : ∀ b ∈ ([27, 91] ++ ds1 ++ [59] ++ ds2 : List Nat), b ≠ 82 := by
      intro b hb
      have hb' : b = 27 ∨ b = 91 ∨ b ∈ ds1 ∨ b = 59 ∨ b ∈ ds2 := by
        simp only [List.append_assoc, List.mem_append, List.mem_cons,
          List.not_mem_nil, or_false] at hb
        tauto
      rcases hb' with h | h | h | h | h
      · omega
      · omega
      · have := hd1 b h
        simp [isDigitByte] at this
        omega
      · omega
      · have := hd2 b h
        simp [isDigitByte] at this
        omega
    have hlen : ([27, 91] ++ ds1 ++ [59] ++ ds2 : List Nat).length < 31 := by
      simp only [List.length_append, List.length_cons, List.length_nil]
      omega
    have hmap : (cprBytes ds1 ds2).map some ++ rest
        = ([27, 91] ++ ds1 ++ [59] ++ ds2).map some ++ some 82 :: rest := by
      simp [cprBytes]
    unfold getCursorPosition
    rw [hmap, collectLoop_until_R ([27, 91] ++ ds1 ++ [59] ++ ds2) 31 rest hpre hlen]
    have hshape : ([27, 91] ++ ds1 ++ [59] ++ ds2 : List Nat)
        = 27 :: 91 :: (ds1 ++ 59 :: ds2) := by simp
    rw [hshape]
    unfold parseReply
    dsimp only
    rw [if_pos rfl, if_pos rfl]
    have hTW : (ds1 ++ 59 :: ds2).takeWhile (fun b => b != 0) = ds1 ++ 59 :: ds2 :=
      List.takeWhile_eq_self_iff.mpr (by
        intro x hx
        simp only [List.mem_append, List.mem_cons] at hx
        simp only [bne_iff_ne, ne_eq]
        rcases hx with h | h | h
        · have := hd1 x h
          simp [isDigitByte] at this
          omega
        · omega
        · have := hd2 x h
          simp [isDigitByte] at this
          omega)
    rw [hTW]
    unfold sscanfDD
    rw [scanInt_digit_run ds1 (59 :: ds2) h1 hd1 (by
      intro x hx
      simp only [List.head?_cons, Option.some_inj] at hx
      subst hx
      decide)]
    dsimp only
    rw [if_pos rfl]
    have hs2 : scanInt ds2 = some ((digitsVal ds2 : Int), ([] : List Nat)) := by
      have := scanInt_digit_run ds2 [] h2 hd2 (by
        intro x hx
        simp at hx)
      rwa [List.append_nil] at this
    rw [hs2]
  · unfold getCursorPosition
    exact parseReply_none_iff (collectLoop 31 stream)

/-- Witness for C8: the reply `ESC [ 2 4 ; 8 0 R` parses to (24, 80), and
the malformed stream consisting of a lone escape byte errors out. -/
theorem getCursorPosition_reply_parsing_witness :
    (([50, 52] : List Nat) ≠ [] ∧ ([56, 48] : List Nat) ≠ []
      ∧ (∀ b ∈ ([50, 52] : List Nat), isDigitByte b = true)
      ∧ (∀ b ∈ ([56, 48] : List Nat), isDigitByte b = true)
      ∧ ([50, 52] : List Nat).length ≤ 10 ∧ ([56, 48] : List Nat).length ≤ 10)
    ∧ (getCursorPosition ((cprBytes [50, 52] [56, 48]).map some ++ [])
        = some ((digitsVal [50, 52] : Int), (digitsVal [56, 48] : Int))
      ∧ (getCursorPosition [some 27] = none ↔
          ((collectLoop 31 [some 27]).take 2 ≠ [27, 91]
            ∨ sscanfDD (((collectLoop 31 [some 27]).drop 2).takeWhile
                (fun b => b != 0)) = none))) :=
  ⟨⟨by decide, by decide, by decide, by decide, by decide, by decide⟩,
    getCursorPosition_reply_parsing [50, 52] [56, 48] [] [some 27]
      (by decide) (by decide) (by decide) (by decide) (by decide) (by decide)⟩

end Kilo
